import Mathlib

/-!
Verification of the riscv64 guest-instruction decoder front end
(`VEX/priv/guest_riscv64_toIR.c`).

The C code is shallowly embedded: machine integers become `Nat` (with explicit
`% 2 ^ w` at the points where the C code truncates), the signed 64-bit
reinterpretation in `sx_to_64` becomes an explicit `Int` computation, the
append-only IR superblock becomes a `List` of statements, the diagnostic
channel becomes a `List String`, and every `vassert` becomes an `Option`
failure (`none` models the fatal abort).  Byte memory is a function
`Nat → Nat`; each value read is one byte (`< 256`) by the caller's contract.
-/

set_option linter.unusedVariables false

namespace RiscvToIR

/-- Subset of the VEX `IRJumpKind` tags used by this translation unit.
`Ijk_INVALID` is the zero/none tag, `Ijk_NoDecode` signals an undecodable
instruction. -/
inductive IRJumpKind where
  | Ijk_INVALID
  | Ijk_NoDecode
deriving DecidableEq, Repr

/-- `DisResult.whatNext` tags: continue sequentially or stop the block. -/
inductive WhatNext where
  | Dis_Continue
  | Dis_StopHere
deriving DecidableEq, Repr

/-- `DisResult.hint` tags; only the none hint occurs in this unit. -/
inductive DisHint where
  | Dis_HintNone
deriving DecidableEq, Repr

/-- The translation outcome record (`DisResult`): continuation, consumed
instruction length in bytes, stop jump kind, and scheduling hint. -/
structure DisResult where
  whatNext : WhatNext
  len : Nat
  jk_StopHere : IRJumpKind
  hint : DisHint
deriving DecidableEq, Repr

/-- IR types; the decoder only ever produces 64-bit integer expressions. -/
inductive IRType where
  | Ity_I64
deriving DecidableEq, Repr

/-- IR expressions appended by this unit: only `IRExpr_Const (IRConst_U64 v)`
is produced (by `mkU64`). -/
inductive IRExpr where
  | const_U64 (value : Nat)
deriving DecidableEq, Repr

/-- IR statements appended by this unit: only `IRStmt_Put (offset, data)`
writes into the guest state are produced. -/
inductive IRStmt where
  | put (offset : Nat) (data : IRExpr)
deriving DecidableEq, Repr

/-- The IR superblock, reduced to its ordered, append-only statement list
(the only part of `IRSB` this unit touches besides fresh temporaries, which
the decoded rule does not use). -/
abbrev IRSB := List IRStmt

/-- `stmt`: add a statement to the list held by irsb (`addStmtToIRSB`). -/
def stmt (irsb : IRSB) (st : IRStmt) : IRSB := irsb ++ [st]

/-- `mkU64`: constant expression; the argument is a C `ULong`, hence the
truncation to 64 bits. -/
def mkU64 (i : Nat) : IRExpr := .const_U64 (i % 2 ^ 64)

/-- `typeOfIRExpr` specialised to the expressions this unit builds. -/
def typeOfIRExpr : IRExpr → IRType
  | .const_U64 _ => .Ity_I64

/-- `getInsn`: read an instruction, which can be 16-bit (compressed) or
32-bit in size.  `p` is the byte window starting at the instruction
(`const UChar*`); each `p i` is one byte. -/
def getInsn (p : Nat → Nat) : Nat :=
  let w0 : Nat := 0
  let w1 : Nat :=
    if (p 0 &&& 0x3) ≠ 0x3 then w0 else (((w0 <<< 8) ||| p 3) <<< 8) ||| p 2
  let w2 : Nat := (w1 <<< 8) ||| p 1
  (w2 <<< 8) ||| p 0

/-- `sx_to_64`: sign extend an N-bit value up to 64 bits, by copying bit N-1
into all higher positions.  The C body shifts the `ULong` left by `64 - n`,
reinterprets it as a signed `Long`, and arithmetic-shifts it back; the
reinterpretation is the explicit `Int` subtraction and the arithmetic right
shift of a signed value is floor division by `2 ^ (64 - n)`, which for a
positive divisor is `Int` division.  The leading `vassert (n > 1 && n < 64)`
is the `Option` guard. -/
def sx_to_64 (x : Nat) (n : Nat) : Option Nat :=
  if 1 < n ∧ n < 64 then
    let shifted : Nat := (x <<< (64 - n)) % 2 ^ 64
    let r : Int := if shifted < 2 ^ 63 then (shifted : Int) else (shifted : Int) - 2 ^ 64
    let r2 : Int := r / (2 : Int) ^ (64 - n)
    some ((r2 % (2 : Int) ^ 64).toNat)
  else none

/-- `BITS2` helper macro. -/
def BITS2 (b1 b0 : Nat) : Nat := (b1 <<< 1) ||| b0

/-- `BITS3` helper macro. -/
def BITS3 (b2 b1 b0 : Nat) : Nat := (b2 <<< 2) ||| (b1 <<< 1) ||| b0

/-- `SLICE_UInt`: produce `u[bMax:bMin]`.  Both the operand and the mask are
cast to the 32-bit `UInt` in C, hence the two truncations. -/
def SLICE_UInt (u bMax bMin : Nat) : Nat :=
  ((u % 2 ^ 32) >>> bMin) &&& (((1 <<< (bMax - bMin + 1)) - 1) % 2 ^ 32)

/-- Modelled from the spec: `offsetof(VexGuestRISCV64State, guest_xN)`.  The
guest-state header is not part of this snapshot; per the spec (§4.3) each
register index in [0,31] maps 1:1 to a fixed storage offset.  The registers
are consecutive 64-bit fields starting at `guest_x0`, with the program
counter following `guest_x31`. -/
def OFFB_X (i : Nat) : Nat := 8 * i

/-- Modelled from the spec: `offsetof(VexGuestRISCV64State, guest_pc)`. -/
def OFFB_PC : Nat := 8 * 32

/-- `offsetIReg64`: the 32-way switch mapping a register index to its
guest-state offset; the `default: vassert(0)` arm is the `none` case. -/
def offsetIReg64 (iregNo : Nat) : Option Nat :=
  if iregNo < 32 then some (OFFB_X iregNo) else none

/-- The ABI register name table from `nameIReg64`. -/
def iregNames : List String :=
  ["zero", "ra", "sp", "gp", "tp", "t0", "t1", "t2", "s0", "s1", "a0",
   "a1", "a2", "a3", "a4", "a5", "a6", "a7", "s2", "s3", "s4", "s5",
   "s6", "s7", "s8", "s9", "s10", "s11", "t3", "t4", "t5", "t6"]

/-- `nameIReg64`: obtain the ABI name of a register; the leading
`vassert (iregNo < 32)` is the `Option` guard. -/
def nameIReg64 (iregNo : Nat) : Option String :=
  if iregNo < 32 then some (iregNames.getD iregNo "") else none

/-- `putIReg64`: append a guest-register write.  The C body asserts that the
expression has 64-bit integer type, then appends
`IRStmt_Put(offsetIReg64(iregNo), e)`; a failing assertion (including the one
inside `offsetIReg64`) is `none`. -/
def putIReg64 (irsb : IRSB) (iregNo : Nat) (e : IRExpr) : Option IRSB :=
  if typeOfIRExpr e = .Ity_I64 then
    match offsetIReg64 iregNo with
    | some off => some (stmt irsb (.put off e))
    | none => none
  else none

/-- The `DIP` macro: append a diagnostic line iff the front-end trace flag
(`vex_traceflags & VEX_TRACE_FE`, the parameter `traceFE`) is set. -/
def DIP (traceFE : Bool) (d : List String) (s : String) : List String :=
  if traceFE then d ++ [s] else d

/-- Lower-case hexadecimal rendering used for the `%x`-style conversions. -/
def hexStr (n : Nat) : String := (Nat.toDigits 16 n).asString

/-- `%08x`-style rendering: hexadecimal, zero-padded to 8 digits. -/
def hexStr8 (n : Nat) : String :=
  let s := hexStr n
  String.mk (List.replicate (8 - s.length) '0') ++ s

/-- The binary dump built on the decode-failure path of `disInstr_RISCV64`:
32 bit characters, most significant first, with a space every 8 bits and an
apostrophe every remaining 4 bits. -/
def dumpBits (insn : Nat) : String :=
  String.mk ((List.range 32).foldl (fun acc i =>
    let acc := if 0 < i then
        (if i % 8 = 0 then acc ++ [' ']
         else if i % 4 = 0 then acc ++ [Char.ofNat 39]
         else acc)
      else acc
    acc ++ [if insn &&& (1 <<< (31 - i)) ≠ 0 then '1' else '0']) [])

/-- The result defaults set at the top of `disInstr_RISCV64_WRK`:
`whatNext = Dis_Continue`, `len = 4`, `jk_StopHere = Ijk_INVALID`,
`hint = Dis_HintNone`. -/
def dresDefaults : DisResult :=
  { whatNext := .Dis_Continue
    len := 4
    jk_StopHere := .Ijk_INVALID
    hint := .Dis_HintNone }

/-- Result quadruple of a sub-decoder: the decode-success flag, the (possibly
updated) `DisResult`, the (possibly extended) statement list, and the
diagnostic lines printed. -/
abbrev DisStep := Bool × DisResult × IRSB × List String

/-- `dis_RISCV64_compressed_00`: quadrant-00 sub-decoder.  Its body is a
`TODO`: it optionally prints the sigill diagnostic and reports failure. -/
def dis_RISCV64_compressed_00 (traceFE : Bool) (dres : DisResult) (irsb : IRSB)
    (insn : Nat) (sigill_diag : Bool) : Option DisStep :=
  some (false, dres, irsb,
    if sigill_diag then ["RISCV64 front end: compressed_00\n"] else [])

/-- `dis_RISCV64_compressed_01`: quadrant-01 sub-decoder.  One rule is
implemented: `c.lui rd, nzimm[17:12]` for `insn[15:13] = 011`, valid when
`rd ∉ {0, 2}` and `nzimm ≠ 0`; on a match it appends a write of the
sign-extended 18-bit immediate to `rd` and reports success, otherwise it
falls through to the shared failure tail.  `nameIReg64 rd` can never be
`none` here since `rd = insn[11:7] < 32`. -/
def dis_RISCV64_compressed_01 (traceFE : Bool) (dres : DisResult) (irsb : IRSB)
    (insn : Nat) (sigill_diag : Bool) : Option DisStep :=
  let failTail : Option DisStep :=
    some (false, dres, irsb,
      if sigill_diag then ["RISCV64 front end: compressed_01\n"] else [])
  if SLICE_UInt insn 15 13 = BITS3 0 1 1 then
    let rd := SLICE_UInt insn 11 7
    let nzimm := (SLICE_UInt insn 12 12 <<< 17) ||| (SLICE_UInt insn 6 2 <<< 12)
    if rd = 0 ∨ rd = 2 ∨ nzimm = 0 then
      -- Invalid C.LUI, fall through.
      failTail
    else
      match sx_to_64 nzimm 18 with
      | none => none
      | some imm =>
        match putIReg64 irsb rd (mkU64 imm) with
        | none => none
        | some irsb1 =>
          match nameIReg64 rd with
          | none => none
          | some nm =>
            some (true, dres, irsb1,
              DIP traceFE [] ("lui " ++ nm ++ ", 0x" ++ hexStr (nzimm >>> 12) ++ "\n"))
  else failTail

/-- `dis_RISCV64_compressed_10`: quadrant-10 sub-decoder; a `TODO` like
quadrant 00. -/
def dis_RISCV64_compressed_10 (traceFE : Bool) (dres : DisResult) (irsb : IRSB)
    (insn : Nat) (sigill_diag : Bool) : Option DisStep :=
  some (false, dres, irsb,
    if sigill_diag then ["RISCV64 front end: compressed_10\n"] else [])

/-- `disInstr_RISCV64_WRK`: set the result defaults, read the instruction
word, assert 4-byte alignment of the guest PC, dispatch on the quadrant
`insn[1:0]`, and on failure assert that the sub-decoders left the defaults
untouched.  The `case X11` arm is a `TODO` that leaves `ok = False`; the
unreachable `default: vassert(0)` arm is `none`. -/
def disInstr_RISCV64_WRK (traceFE : Bool) (guest_instr : Nat → Nat)
    (guest_pc_curr_instr : Nat) (sigill_diag : Bool) (irsb : IRSB) :
    Option DisStep :=
  -- Set result defaults.
  let dres : DisResult := dresDefaults
  -- Read the instruction word.
  let insn := getInsn guest_instr
  let d0 := DIP traceFE [] ("\t(riscv64) 0x" ++ hexStr guest_pc_curr_instr ++ ":  ")
  -- vassert(0 == (guest_pc_curr_instr & 3ULL));
  if guest_pc_curr_instr &&& 3 ≠ 0 then none
  else
    let step : Option DisStep :=
      -- switch (INSN(1, 0)): case X00 / X01 / X10 / X11 / default
      if SLICE_UInt insn 1 0 = 0 then
        dis_RISCV64_compressed_00 traceFE dres irsb insn sigill_diag
      else if SLICE_UInt insn 1 0 = 1 then
        dis_RISCV64_compressed_01 traceFE dres irsb insn sigill_diag
      else if SLICE_UInt insn 1 0 = 2 then
        dis_RISCV64_compressed_10 traceFE dres irsb insn sigill_diag
      else if SLICE_UInt insn 1 0 = 3 then
        some (false, dres, irsb, [])
      else none
    match step with
    | none => none
    | some (ok, dres1, irsb1, d1) =>
      if ok then some (ok, dres1, irsb1, d0 ++ d1)
      else
        -- If the next-level down decoders failed, make sure dres didn't get
        -- changed (three vasserts).
        if dres1.whatNext = .Dis_Continue ∧ dres1.len = 4 ∧
            dres1.jk_StopHere = .Ijk_INVALID then
          some (ok, dres1, irsb1, d0 ++ d1)
        else none

/-- `disInstr_RISCV64`: the top-level driver.  On success it asserts
`len ∈ {4, 20}` and, for `Dis_Continue`, appends the PC update to
`guest_IP + len`; on failure it optionally prints the diagnostic dump,
forces a PC write of the current address, and overwrites the outcome to
`(Dis_StopHere, 0, Ijk_NoDecode)`.  The architecture check and the
zero-initialisation of `dres` (every field is reassigned before use) are
invisible in the embedding. -/
def disInstr_RISCV64 (traceFE : Bool) (irsb : IRSB) (guest_code : Nat → Nat)
    (delta : Nat) (guest_IP : Nat) (sigill_diag : Bool) :
    Option (DisResult × IRSB × List String) :=
  match disInstr_RISCV64_WRK traceFE (fun i => guest_code (delta + i)) guest_IP
      sigill_diag irsb with
  | none => none
  | some (ok, dres, irsb1, d1) =>
    if ok then
      -- All decode successes end up here.
      if dres.len = 4 ∨ dres.len = 20 then
        match dres.whatNext with
        | .Dis_Continue =>
          some (dres, stmt irsb1 (.put OFFB_PC (mkU64 (guest_IP + dres.len))),
            d1 ++ DIP traceFE [] "\n")
        | .Dis_StopHere => some (dres, irsb1, d1 ++ DIP traceFE [] "\n")
      else none
    else
      -- All decode failures end up here.
      let insn := getInsn (fun i => guest_code (delta + i))
      let d2 := if sigill_diag then
          d1 ++ ["disInstr(riscv64): unhandled instruction 0x" ++ hexStr8 insn ++ "\n",
                 "disInstr(riscv64): " ++ dumpBits insn ++ "\n"]
        else d1
      let irsb2 := stmt irsb1 (.put OFFB_PC (mkU64 guest_IP))
      let dres2 : DisResult :=
        { dres with len := 0, whatNext := .Dis_StopHere, jk_StopHere := .Ijk_NoDecode }
      some (dres2, irsb2, d2)

/-- Byte window holding the little-endian compressed instruction `0x6505`,
i.e. `c.lui a0, 0x1` (`rd = 10`, `nzimm = 0x1000`). -/
def luiExampleBytes : Nat → Nat := fun i => [0x05, 0x65, 0, 0].getD i 0

/-- Byte window of zero bytes: instruction word 0, quadrant 00, undecodable. -/
def zeroBytes : Nat → Nat := fun _ => 0

/-- Projection of a driver result onto its decode-relevant parts (outcome and
statement list), dropping the diagnostic lines. -/
def observableTop (r : DisResult × IRSB × List String) : DisResult × IRSB :=
  (r.1, r.2.1)

/-- Projection of a `disInstr_RISCV64_WRK` result onto its decode-relevant
parts (success flag, outcome, statement list), dropping the diagnostics. -/
def observableWrk (r : DisStep) : Bool × DisResult × IRSB :=
  (r.1, r.2.1, r.2.2.1)

/-! ## Basic facts about the bit-manipulation primitives -/

theorem SLICE_UInt_lt (u bMax bMin : Nat) (h : bMax - bMin + 1 ≤ 32) :
    SLICE_UInt u bMax bMin < 2 ^ (bMax - bMin + 1) := by
  unfold SLICE_UInt
  have hm : (1 <<< (bMax - bMin + 1)) - 1 = 2 ^ (bMax - bMin + 1) - 1 := by
    rw [Nat.shiftLeft_eq, one_mul]
  have hlt : 2 ^ (bMax - bMin + 1) - 1 < 2 ^ 32 := by
    have : 2 ^ (bMax - bMin + 1) ≤ 2 ^ 32 := Nat.pow_le_pow_right (by norm_num) h
    omega
  rw [hm, Nat.mod_eq_of_lt hlt, Nat.and_pow_two_sub_one_eq_mod]
  exact Nat.mod_lt _ (Nat.pos_pow_of_pos _ (by norm_num))

theorem SLICE_UInt_eq_mod (u bMax bMin : Nat) (h : bMax - bMin + 1 ≤ 32) :
    SLICE_UInt u bMax bMin = ((u % 2 ^ 32) >>> bMin) % 2 ^ (bMax - bMin + 1) := by
  unfold SLICE_UInt
  have hm : (1 <<< (bMax - bMin + 1)) - 1 = 2 ^ (bMax - bMin + 1) - 1 := by
    rw [Nat.shiftLeft_eq, one_mul]
  have hlt : 2 ^ (bMax - bMin + 1) - 1 < 2 ^ 32 := by
    have : 2 ^ (bMax - bMin + 1) ≤ 2 ^ 32 := Nat.pow_le_pow_right (by norm_num) h
    omega
  rw [hm, Nat.mod_eq_of_lt hlt, Nat.and_pow_two_sub_one_eq_mod]

/-- `a <<< k ||| b` is plain addition when `b` fits in the low `k` bits. -/
theorem shiftLeft_or_eq_add (a b k : Nat) (hb : b < 2 ^ k) :
    (a <<< k) ||| b = a * 2 ^ k + b := by
  rw [Nat.shiftLeft_eq, Nat.mul_comm, ← Nat.mul_add_lt_is_or hb, Nat.mul_comm]

/-- C7: for every 32-bit word and bit positions `lowBit ≤ highBit < 32`,
`SLICE_UInt word highBit lowBit` equals `(word >>> lowBit)` reduced modulo
`2 ^ (highBit - lowBit + 1)` (i.e. masked to the span width), and is strictly
below `2 ^ (highBit - lowBit + 1)`. -/
theorem C7_extractField (word highBit lowBit : Nat) (hword : word < 2 ^ 32)
    (hle : lowBit ≤ highBit) (hhi : highBit < 32) :
    SLICE_UInt word highBit lowBit =
      (word >>> lowBit) % 2 ^ (highBit - lowBit + 1) ∧
    SLICE_UInt word highBit lowBit < 2 ^ (highBit - lowBit + 1) := by
  have hspan : highBit - lowBit + 1 ≤ 32 := by omega
  constructor
  · rw [SLICE_UInt_eq_mod word highBit lowBit hspan, Nat.mod_eq_of_lt hword]
  · exact SLICE_UInt_lt word highBit lowBit hspan

/-- C7 witness: `SLICE_UInt` at a concrete input. -/
theorem C7_extractField_witness :
    (0xdeadbeef : Nat) < 2 ^ 32 ∧ (7 : Nat) ≤ 15 ∧ (15 : Nat) < 32 ∧
    SLICE_UInt 0xdeadbeef 15 7 = (0xdeadbeef >>> 7) % 2 ^ (15 - 7 + 1) ∧
    SLICE_UInt 0xdeadbeef 15 7 < 2 ^ (15 - 7 + 1) :=
  ⟨by norm_num, by norm_num, by norm_num,
    (C7_extractField 0xdeadbeef 15 7 (by norm_num) (by norm_num) (by norm_num)).1,
    (C7_extractField 0xdeadbeef 15 7 (by norm_num) (by norm_num) (by norm_num)).2⟩

/-- C6: for `1 < width < 64` and `value < 2 ^ width`, the sign extension
computed by the shift trick succeeds and the resulting 64-bit pattern has
bits `[width-1:0]` equal to `value` (the low residue) and bits `[63:width]`
all equal to bit `width-1` of `value` (the high quotient is all-ones exactly
when `value / 2 ^ (width - 1) = 1`). -/
theorem C6_signExtend (value width : Nat) (h1 : 1 < width) (h2 : width < 64)
    (hv : value < 2 ^ width) :
    ∃ y, sx_to_64 value width = some y ∧ y < 2 ^ 64 ∧ y % 2 ^ width = value ∧
      y / 2 ^ width =
        (if value / 2 ^ (width - 1) = 1 then 2 ^ (64 - width) - 1 else 0) := by
  set k := 64 - width with hk
  have hnk : width + k = 64 := by omega
  have hkpos : 0 < (2 : Nat) ^ k := Nat.pos_pow_of_pos _ (by norm_num)
  have hpow : 2 ^ width * 2 ^ k = 2 ^ 64 := by rw [← pow_add, hnk]
  have hpow63 : 2 ^ (width - 1) * 2 ^ k = 2 ^ 63 := by
    rw [← pow_add]
    congr 1
    omega
  have h2w : 2 ^ (width - 1) * 2 = 2 ^ width := by
    rw [← pow_succ]
    congr 1
    omega
  have hwle : (2 : Nat) ^ width ≤ 2 ^ 64 := by
    exact Nat.pow_le_pow_right (by norm_num) (by omega)
  have hv64 : value < 2 ^ 64 := lt_of_lt_of_le hv hwle
  have hx64 : value * 2 ^ k < 2 ^ 64 := by
    calc value * 2 ^ k < 2 ^ width * 2 ^ k := (Nat.mul_lt_mul_right hkpos).mpr hv
      _ = 2 ^ 64 := hpow
  have hshift : (value <<< k) % 2 ^ 64 = value * 2 ^ k := by
    rw [Nat.shiftLeft_eq, Nat.mod_eq_of_lt hx64]
  simp only [sx_to_64, ← hk, hshift, if_pos (show 1 < width ∧ width < 64 from ⟨h1, h2⟩)]
  by_cases hsign : value < 2 ^ (width - 1)
  · have hlt63 : value * 2 ^ k < 2 ^ 63 := by
      calc value * 2 ^ k < 2 ^ (width - 1) * 2 ^ k :=
            (Nat.mul_lt_mul_right hkpos).mpr hsign
        _ = 2 ^ 63 := hpow63
    rw [if_pos hlt63]
    have e2 : ((value * 2 ^ k : Nat) : Int) / (2 : Int) ^ k = (value : Int) := by
      push_cast
      exact Int.mul_ediv_cancel _ (by positivity)
    have e3 : ((value : Int)) % (2 : Int) ^ 64 = (value : Int) :=
      Int.emod_eq_of_lt (by positivity) (by exact_mod_cast hv64)
    refine ⟨value, ?_, hv64, Nat.mod_eq_of_lt hv, ?_⟩
    · rw [e2, e3, Int.toNat_natCast]
    · rw [Nat.div_eq_of_lt hv, Nat.div_eq_of_lt hsign]
      norm_num
  · have hge : 2 ^ (width - 1) ≤ value := le_of_not_lt hsign
    have hge63 : ¬ value * 2 ^ k < 2 ^ 63 := by
      apply not_lt_of_le
      calc (2 : Nat) ^ 63 = 2 ^ (width - 1) * 2 ^ k := hpow63.symm
        _ ≤ value * 2 ^ k := Nat.mul_le_mul_right _ hge
    rw [if_neg hge63]
    have hpInt : ((2 : Int) ^ width) * 2 ^ k = 2 ^ 64 := by exact_mod_cast hpow
    have e1 : ((value * 2 ^ k : Nat) : Int) - 2 ^ 64 =
        ((value : Int) - 2 ^ width) * 2 ^ k := by
      push_cast
      rw [sub_mul, hpInt]
      norm_num
    have e2 : ((value : Int) - 2 ^ width) * 2 ^ k / 2 ^ k =
        (value : Int) - 2 ^ width :=
      Int.mul_ediv_cancel _ (by positivity)
    have hvInt : (value : Int) < 2 ^ width := by exact_mod_cast hv
    have hwleInt : (2 : Int) ^ width ≤ 2 ^ 64 := by exact_mod_cast hwle
    have e3 : ((value : Int) - 2 ^ width) % 2 ^ 64 =
        (value : Int) + 2 ^ 64 - 2 ^ width := by
      calc ((value : Int) - 2 ^ width) % 2 ^ 64
          = ((value : Int) - 2 ^ width + 2 ^ 64 * 1) % 2 ^ 64 :=
            (Int.add_mul_emod_self_left _ _ _).symm
        _ = ((value : Int) + 2 ^ 64 - 2 ^ width) % 2 ^ 64 := by ring_nf
        _ = (value : Int) + 2 ^ 64 - 2 ^ width := by
            apply Int.emod_eq_of_lt
            · have : (0 : Int) ≤ (value : Int) := by positivity
              linarith
            · linarith
    have hcast : (value : Int) + 2 ^ 64 - 2 ^ width =
        ((value + (2 ^ 64 - 2 ^ width) : Nat) : Int) := by
      have hbridge : ((2 ^ width : Nat) : Int) = (2 : Int) ^ width := by
        push_cast
        rfl
      omega
    have hsub : 2 ^ 64 - 2 ^ width = 2 ^ width * (2 ^ k - 1) := by
      rw [Nat.mul_sub, hpow, mul_one]
    refine ⟨value + (2 ^ 64 - 2 ^ width), ?_, by omega, ?_, ?_⟩
    · rw [e1, e2, e3, hcast, Int.toNat_natCast]
    · rw [hsub, Nat.add_mul_mod_self_left, Nat.mod_eq_of_lt hv]
    · have hdiv1 : value / 2 ^ (width - 1) = 1 := by
        apply Nat.div_eq_of_lt_le
        · rw [one_mul]
          exact hge
        · rw [show (1 + 1) * 2 ^ (width - 1) = 2 ^ (width - 1) * 2 by ring, h2w]
          exact hv
      rw [hsub, Nat.add_mul_div_left _ _ (Nat.pos_pow_of_pos _ (by norm_num)),
        Nat.div_eq_of_lt hv, hdiv1]
      simp

/-- C6 witness: sign extension at `width = 18`, `value = 0x3F000`
(sign bit set). -/
theorem C6_signExtend_witness :
    (1 : Nat) < 18 ∧ (18 : Nat) < 64 ∧ (0x3F000 : Nat) < 2 ^ 18 ∧
    ∃ y, sx_to_64 0x3F000 18 = some y ∧ y < 2 ^ 64 ∧ y % 2 ^ 18 = 0x3F000 ∧
      y / 2 ^ 18 = (if 0x3F000 / 2 ^ (18 - 1) = 1 then 2 ^ (64 - 18) - 1 else 0) :=
  ⟨by norm_num, by norm_num, by norm_num,
    C6_signExtend 0x3F000 18 (by norm_num) (by norm_num) (by norm_num)⟩

/-- C8: the instruction reader decides the length from byte 0's low two bits.
If they are not `11` it returns the two low bytes assembled little-endian (a
word whose upper 16 bits are zero); otherwise it assembles bytes 0..3
little-endian.  In all cases the result depends only on bytes 0..3: any two
byte windows agreeing there give the same word. -/
theorem C8_instructionReader (p q : Nat → Nat) (hp : ∀ i, i < 4 → p i < 256)
    (hagree : ∀ i, i < 4 → p i = q i) :
    ((p 0 &&& 0x3) ≠ 0x3 →
      getInsn p = p 1 * 2 ^ 8 + p 0 ∧ getInsn p < 2 ^ 16) ∧
    ((p 0 &&& 0x3) = 0x3 →
      getInsn p = p 3 * 2 ^ 24 + p 2 * 2 ^ 16 + p 1 * 2 ^ 8 + p 0) ∧
    getInsn p = getInsn q := by
  have h0 : p 0 < 2 ^ 8 := hp 0 (by norm_num)
  have h1 : p 1 < 2 ^ 8 := hp 1 (by norm_num)
  have h2 : p 2 < 2 ^ 8 := hp 2 (by norm_num)
  have h3 : p 3 < 2 ^ 8 := hp 3 (by norm_num)
  refine ⟨?_, ?_, ?_⟩
  · intro hc
    simp only [getInsn, if_pos hc, Nat.zero_shiftLeft, Nat.zero_or]
    rw [shiftLeft_or_eq_add _ _ _ h0]
    refine ⟨rfl, ?_⟩
    have hm : p 1 * 2 ^ 8 ≤ 255 * 2 ^ 8 := Nat.mul_le_mul_right _ (by omega)
    have : (2 : Nat) ^ 16 = 2 ^ 8 * 2 ^ 8 := by norm_num
    omega
  · intro hc
    have hc' : ¬ (p 0 &&& 0x3) ≠ 0x3 := not_not_intro hc
    simp only [getInsn, if_neg hc', Nat.zero_shiftLeft, Nat.zero_or]
    rw [shiftLeft_or_eq_add _ _ _ h2, shiftLeft_or_eq_add _ _ _ h1,
      shiftLeft_or_eq_add _ _ _ h0]
    ring
  · have e0 := hagree 0 (by norm_num)
    have e1 := hagree 1 (by norm_num)
    have e2 := hagree 2 (by norm_num)
    have e3 := hagree 3 (by norm_num)
    simp only [getInsn, e0, e1, e2, e3]

/-- C8 witness: the reader at the concrete window `0x05 0x65 0x00 0x00`
(compressed, since `0x05 &&& 3 = 1`). -/
theorem C8_instructionReader_witness :
    (∀ i, i < 4 → luiExampleBytes i < 256) ∧
    (luiExampleBytes 0 &&& 0x3) ≠ 0x3 ∧
    getInsn luiExampleBytes = luiExampleBytes 1 * 2 ^ 8 + luiExampleBytes 0 ∧
    getInsn luiExampleBytes < 2 ^ 16 := by
  have hp : ∀ i, i < 4 → luiExampleBytes i < 256 := by decide
  have hc : (luiExampleBytes 0 &&& 0x3) ≠ 0x3 := by decide
  exact ⟨hp, hc,
    (C8_instructionReader luiExampleBytes luiExampleBytes hp (fun i _ => rfl)).1 hc⟩

/-! ## Structural facts about the decoders -/

/-- The quadrant-01 sub-decoder always returns `some`; its success flag and
resulting statement list do not depend on the two diagnostic flags; it never
touches the `DisResult`; and on failure it leaves the statement list
untouched. -/
theorem compressed_01_shape (dres : DisResult) (irsb : IRSB) (insn : Nat) :
    ∃ ok irsb1, (ok = false → irsb1 = irsb) ∧
      ∀ t s, Option.map observableWrk (dis_RISCV64_compressed_01 t dres irsb insn s) =
        some (ok, dres, irsb1) := by
  by_cases hm : SLICE_UInt insn 15 13 = BITS3 0 1 1
  · by_cases hside : SLICE_UInt insn 11 7 = 0 ∨ SLICE_UInt insn 11 7 = 2 ∨
        ((SLICE_UInt insn 12 12 <<< 17) ||| (SLICE_UInt insn 6 2 <<< 12)) = 0
    · refine ⟨false, irsb, fun _ => rfl, fun t s => ?_⟩
      simp only [dis_RISCV64_compressed_01, if_pos hm, if_pos hside,
        Option.map_some', observableWrk]
    · have hrd : SLICE_UInt insn 11 7 < 32 := by
        have h := SLICE_UInt_lt insn 11 7 (by norm_num)
        norm_num at h
        exact h
      have hsome : (sx_to_64 ((SLICE_UInt insn 12 12 <<< 17) |||
          (SLICE_UInt insn 6 2 <<< 12)) 18).isSome := by
        simp only [sx_to_64]
        rw [if_pos (by norm_num)]
        rfl
      obtain ⟨imm, himm⟩ := Option.isSome_iff_exists.mp hsome
      refine ⟨true, stmt irsb (.put (OFFB_X (SLICE_UInt insn 11 7)) (mkU64 imm)),
        by simp, fun t s => ?_⟩
      simp only [dis_RISCV64_compressed_01, if_pos hm, if_neg hside, himm,
        putIReg64, typeOfIRExpr, mkU64, offsetIReg64, if_pos hrd, nameIReg64,
        Option.map_some', observableWrk, stmt]
      rfl
  · refine ⟨false, irsb, fun _ => rfl, fun t s => ?_⟩
    simp only [dis_RISCV64_compressed_01, if_neg hm, Option.map_some', observableWrk]

/-- A misaligned guest PC makes the worker abort (the alignment `vassert`). -/
theorem WRK_misaligned (t : Bool) (p : Nat → Nat) (pc : Nat) (s : Bool)
    (irsb : IRSB) (h : pc &&& 3 ≠ 0) :
    disInstr_RISCV64_WRK t p pc s irsb = none := by
  simp only [disInstr_RISCV64_WRK, if_pos h]

/-- With an aligned guest PC the worker always returns `some`; the returned
`DisResult` is exactly the defaults; the success flag and statement list do
not depend on the diagnostic flags; and on failure the statement list is the
input one. -/
theorem WRK_aligned (p : Nat → Nat) (pc : Nat) (irsb : IRSB)
    (h : pc &&& 3 = 0) :
    ∃ ok irsb1, (ok = false → irsb1 = irsb) ∧
      ∀ t s, Option.map observableWrk (disInstr_RISCV64_WRK t p pc s irsb) =
        some (ok, dresDefaults, irsb1) := by
  have hnn : ¬ pc &&& 3 ≠ 0 := not_not_intro h
  have hq : SLICE_UInt (getInsn p) 1 0 < 4 := by
    have h4 := SLICE_UInt_lt (getInsn p) 1 0 (by norm_num)
    norm_num at h4
    exact h4
  have hqe : SLICE_UInt (getInsn p) 1 0 = 0 ∨ SLICE_UInt (getInsn p) 1 0 = 1 ∨
      SLICE_UInt (getInsn p) 1 0 = 2 ∨ SLICE_UInt (getInsn p) 1 0 = 3 := by omega
  rcases hqe with hqe | hqe | hqe | hqe
  · refine ⟨false, irsb, fun _ => rfl, fun t s => ?_⟩
    simp only [disInstr_RISCV64_WRK, if_neg hnn, if_pos hqe,
      dis_RISCV64_compressed_00]
    simp [observableWrk, dresDefaults]
  · have h0 : ¬ SLICE_UInt (getInsn p) 1 0 = 0 := by omega
    obtain ⟨ok, irsb1, himp, hall⟩ := compressed_01_shape dresDefaults irsb (getInsn p)
    refine ⟨ok, irsb1, himp, fun t s => ?_⟩
    obtain ⟨r, hr, hobs⟩ := Option.map_eq_some'.mp (hall t s)
    obtain ⟨rok, rdres, rirsb, rd⟩ := r
    simp only [observableWrk, Prod.mk.injEq] at hobs
    obtain ⟨h1, h2, h3⟩ := hobs
    subst h1 h2 h3
    simp only [disInstr_RISCV64_WRK, if_neg hnn, if_neg h0, if_pos hqe, hr]
    cases rok <;> simp [observableWrk, dresDefaults]
  · have h0 : ¬ SLICE_UInt (getInsn p) 1 0 = 0 := by omega
    have h1 : ¬ SLICE_UInt (getInsn p) 1 0 = 1 := by omega
    refine ⟨false, irsb, fun _ => rfl, fun t s => ?_⟩
    simp only [disInstr_RISCV64_WRK, if_neg hnn, if_neg h0, if_neg h1,
      if_pos hqe, dis_RISCV64_compressed_10]
    simp [observableWrk, dresDefaults]
  · have h0 : ¬ SLICE_UInt (getInsn p) 1 0 = 0 := by omega
    have h1 : ¬ SLICE_UInt (getInsn p) 1 0 = 1 := by omega
    have h2 : ¬ SLICE_UInt (getInsn p) 1 0 = 2 := by omega
    refine ⟨false, irsb, fun _ => rfl, fun t s => ?_⟩
    simp only [disInstr_RISCV64_WRK, if_neg hnn, if_neg h0, if_neg h1, if_neg h2,
      if_pos hqe]
    simp [observableWrk, dresDefaults]

/-- Any `some` result of the worker carries the default `DisResult`, and on a
failed decode the statement list is unchanged. -/
theorem WRK_inv (t : Bool) (p : Nat → Nat) (pc : Nat) (s : Bool) (irsb : IRSB)
    (ok : Bool) (dres1 : DisResult) (irsb1 : IRSB) (d : List String)
    (h : disInstr_RISCV64_WRK t p pc s irsb = some (ok, dres1, irsb1, d)) :
    dres1 = dresDefaults ∧ (ok = false → irsb1 = irsb) := by
  by_cases ha : pc &&& 3 = 0
  · obtain ⟨ok', irsb1', himp, hall⟩ := WRK_aligned p pc irsb ha
    have hd' := hall t s
    rw [h] at hd'
    simp only [Option.map_some', observableWrk, Option.some.injEq,
      Prod.mk.injEq] at hd'
    obtain ⟨hok, hdres, hirsb⟩ := hd'
    subst hok hdres hirsb
    exact ⟨rfl, himp⟩
  · rw [WRK_misaligned t p pc s irsb ha] at h
    exact absurd h (by simp)

/-! ## Claim theorems -/

/-- C2: for every decode call that reports success, the `len ∈ {4, 20}`
assertion of the top-level driver holds, and the driver appends exactly one
program-counter write of `guest_IP + len` when the continuation is
`Dis_Continue`, and nothing of its own when it is `Dis_StopHere`. -/
theorem C2_success_wrapping (t : Bool) (guest_code : Nat → Nat)
    (delta guest_IP : Nat) (s : Bool) (irsb : IRSB) (dres : DisResult)
    (irsb1 : IRSB) (d1 : List String)
    (h : disInstr_RISCV64_WRK t (fun i => guest_code (delta + i)) guest_IP s irsb =
      some (true, dres, irsb1, d1)) :
    (dres.len = 4 ∨ dres.len = 20) ∧
    ∃ d2, disInstr_RISCV64 t irsb guest_code delta guest_IP s =
      some (dres,
        (if dres.whatNext = .Dis_Continue
          then stmt irsb1 (.put OFFB_PC (mkU64 (guest_IP + dres.len)))
          else irsb1), d2) := by
  obtain ⟨hdd, -⟩ := WRK_inv t (fun i => guest_code (delta + i)) guest_IP s irsb
    true dres irsb1 d1 h
  subst hdd
  refine ⟨Or.inl rfl, ⟨d1 ++ DIP t [] "\n", ?_⟩⟩
  simp [disInstr_RISCV64, h, dresDefaults, stmt]

/-- C2 witness: the driver on the concrete `c.lui a0, 0x1` instruction. -/
theorem C2_success_wrapping_witness :
    disInstr_RISCV64_WRK false (fun i => luiExampleBytes (0 + i)) 0 false [] =
      some (true, dresDefaults, [.put (OFFB_X 10) (.const_U64 0x1000)], []) ∧
    ((dresDefaults.len = 4 ∨ dresDefaults.len = 20) ∧
      ∃ d2, disInstr_RISCV64 false [] luiExampleBytes 0 0 false =
        some (dresDefaults,
          (if dresDefaults.whatNext = .Dis_Continue
            then stmt [.put (OFFB_X 10) (.const_U64 0x1000)]
              (.put OFFB_PC (mkU64 (0 + dresDefaults.len)))
            else [.put (OFFB_X 10) (.const_U64 0x1000)]), d2)) :=
  ⟨by decide, C2_success_wrapping false luiExampleBytes 0 0 false [] dresDefaults
    [.put (OFFB_X 10) (.const_U64 0x1000)] [] (by decide)⟩

/-- C3: on every input where no encoding rule matches (decode flag false),
the driver appends a program-counter write of the current (undecoded)
instruction address and returns the outcome with `len = 0`,
`whatNext = Dis_StopHere` and `jk_StopHere = Ijk_NoDecode`. -/
theorem C3_failure_wrapping (t : Bool) (guest_code : Nat → Nat)
    (delta guest_IP : Nat) (s : Bool) (irsb : IRSB) (dres0 : DisResult)
    (irsb1 : IRSB) (d1 : List String)
    (h : disInstr_RISCV64_WRK t (fun i => guest_code (delta + i)) guest_IP s irsb =
      some (false, dres0, irsb1, d1)) :
    ∃ r, disInstr_RISCV64 t irsb guest_code delta guest_IP s = some r ∧
      r.1.whatNext = .Dis_StopHere ∧ r.1.len = 0 ∧
      r.1.jk_StopHere = .Ijk_NoDecode ∧
      r.2.1 = stmt irsb1 (.put OFFB_PC (mkU64 guest_IP)) := by
  simp only [disInstr_RISCV64, h]
  exact ⟨_, rfl, rfl, rfl, rfl, rfl⟩

/-- C3 witness: the driver on the undecodable all-zero instruction word. -/
theorem C3_failure_wrapping_witness :
    disInstr_RISCV64_WRK false (fun i => zeroBytes (0 + i)) 0 false [] =
      some (false, dresDefaults, [], []) ∧
    ∃ r, disInstr_RISCV64 false [] zeroBytes 0 0 false = some r ∧
      r.1.whatNext = .Dis_StopHere ∧ r.1.len = 0 ∧
      r.1.jk_StopHere = .Ijk_NoDecode ∧
      r.2.1 = stmt [] (.put OFFB_PC (mkU64 0)) :=
  ⟨by decide, C3_failure_wrapping false zeroBytes 0 0 false [] dresDefaults [] []
    (by decide)⟩

/-- C4: with an aligned PC, the worker passes its final assertion (returns
`some`), and whenever the quadrant dispatch reported failure the outcome
still equals the `Init` defaults. -/
theorem C4_failure_invariant (t : Bool) (p : Nat → Nat) (pc : Nat) (s : Bool)
    (irsb : IRSB) (halign : pc &&& 3 = 0) :
    ∃ r, disInstr_RISCV64_WRK t p pc s irsb = some r ∧
      (r.1 = false → r.2.1 = dresDefaults) := by
  obtain ⟨ok, irsb1, -, hall⟩ := WRK_aligned p pc irsb halign
  obtain ⟨r, hr, hobs⟩ := Option.map_eq_some'.mp (hall t s)
  obtain ⟨a, b, c, d⟩ := r
  simp only [observableWrk, Prod.mk.injEq] at hobs
  exact ⟨(a, b, c, d), hr, fun _ => hobs.2.1⟩

/-- C4 witness: the worker on the all-zero word at PC 0. -/
theorem C4_failure_invariant_witness :
    ((0 : Nat) &&& 3 = 0) ∧
    ∃ r, disInstr_RISCV64_WRK false zeroBytes 0 false [] = some r ∧
      (r.1 = false → r.2.1 = dresDefaults) :=
  ⟨by decide, C4_failure_invariant false zeroBytes 0 false [] (by decide)⟩

/-- C5: a quadrant-01 word matching the `c.lui` bit pattern whose side
constraints fail (`rd = 0`, `rd = 2`, or zero immediate) makes the rule
return failure with the `DisResult` and the statement list exactly as they
were — only the optional diagnostic is produced. -/
theorem C5_rule_rejection_atomic (t : Bool) (dres : DisResult) (irsb : IRSB)
    (insn : Nat) (s : Bool)
    (hq : SLICE_UInt insn 1 0 = BITS2 0 1)
    (hm : SLICE_UInt insn 15 13 = BITS3 0 1 1)
    (hside : SLICE_UInt insn 11 7 = 0 ∨ SLICE_UInt insn 11 7 = 2 ∨
      ((SLICE_UInt insn 12 12 <<< 17) ||| (SLICE_UInt insn 6 2 <<< 12)) = 0) :
    dis_RISCV64_compressed_01 t dres irsb insn s =
      some (false, dres, irsb,
        if s then ["RISCV64 front end: compressed_01\n"] else []) := by
  simp only [dis_RISCV64_compressed_01, if_pos hm, if_pos hside]

/-- C5 witness: word `0x7001` (pattern matches, `rd = 0`, `nzimm = 0x20000`)
leaves an arbitrary prior state untouched. -/
theorem C5_rule_rejection_atomic_witness :
    SLICE_UInt 0x7001 1 0 = BITS2 0 1 ∧
    SLICE_UInt 0x7001 15 13 = BITS3 0 1 1 ∧
    SLICE_UInt 0x7001 11 7 = 0 ∧
    dis_RISCV64_compressed_01 true dresDefaults
        [.put OFFB_PC (.const_U64 8)] 0x7001 true =
      some (false, dresDefaults, [.put OFFB_PC (.const_U64 8)],
        ["RISCV64 front end: compressed_01\n"]) :=
  ⟨by decide, by decide, by decide,
    C5_rule_rejection_atomic true dresDefaults [.put OFFB_PC (.const_U64 8)]
      0x7001 true (by decide) (by decide) (Or.inl (by decide))⟩

/-- C9: the decode-success flag, the resulting `DisResult` and the statement
list of both the worker and the driver are independent of the diagnostic
flags (front-end tracing and `sigill_diag`). -/
theorem C9_diag_noninterference (irsb : IRSB) (guest_code : Nat → Nat)
    (delta guest_IP : Nat) (t1 s1 t2 s2 : Bool) :
    Option.map observableWrk
        (disInstr_RISCV64_WRK t1 (fun i => guest_code (delta + i)) guest_IP s1 irsb) =
      Option.map observableWrk
        (disInstr_RISCV64_WRK t2 (fun i => guest_code (delta + i)) guest_IP s2 irsb) ∧
    Option.map observableTop (disInstr_RISCV64 t1 irsb guest_code delta guest_IP s1) =
      Option.map observableTop (disInstr_RISCV64 t2 irsb guest_code delta guest_IP s2) := by
  by_cases ha : guest_IP &&& 3 = 0
  · obtain ⟨ok, irsb1, -, hall⟩ :=
      WRK_aligned (fun i => guest_code (delta + i)) guest_IP irsb ha
    refine ⟨by rw [hall t1 s1, hall t2 s2], ?_⟩
    obtain ⟨r1, hr1, ho1⟩ := Option.map_eq_some'.mp (hall t1 s1)
    obtain ⟨r2, hr2, ho2⟩ := Option.map_eq_some'.mp (hall t2 s2)
    obtain ⟨a1, b1, c1, e1⟩ := r1
    obtain ⟨a2, b2, c2, e2⟩ := r2
    simp only [observableWrk, Prod.mk.injEq] at ho1 ho2
    obtain ⟨x1, y1, z1⟩ := ho1
    obtain ⟨x2, y2, z2⟩ := ho2
    subst x1 y1 z1 x2 y2 z2
    simp only [disInstr_RISCV64, hr1, hr2]
    cases a2 <;> simp [observableTop, dresDefaults, stmt]
  · have m1 := WRK_misaligned t1 (fun i => guest_code (delta + i)) guest_IP s1 irsb ha
    have m2 := WRK_misaligned t2 (fun i => guest_code (delta + i)) guest_IP s2 irsb ha
    refine ⟨by rw [m1, m2], ?_⟩
    simp only [disInstr_RISCV64, m1, m2]

/-- C10: the worker requires a 4-byte aligned PC: aligned calls pass the
assertion (return `some`), while a 2-byte aligned PC — architecturally legal
where compressed instructions exist — hits the fatal assertion (`none`). -/
theorem C10_pc_alignment (t : Bool) (p : Nat → Nat) (s : Bool) (irsb : IRSB)
    (pc : Nat) :
    (pc % 4 = 0 → ∃ r, disInstr_RISCV64_WRK t p pc s irsb = some r) ∧
    (pc % 4 = 2 → disInstr_RISCV64_WRK t p pc s irsb = none) := by
  have hand : pc &&& 3 = pc % 4 := by
    have h := Nat.and_pow_two_sub_one_eq_mod pc 2
    norm_num at h
    exact h
  constructor
  · intro h0
    obtain ⟨ok, irsb1, -, hall⟩ := WRK_aligned p pc irsb (by rw [hand, h0])
    obtain ⟨r, hr, -⟩ := Option.map_eq_some'.mp (hall t s)
    exact ⟨r, hr⟩
  · intro h2
    refine WRK_misaligned t p pc s irsb ?_
    rw [hand, h2]
    norm_num

/-- C10 witness: the worker at PC 0 (aligned) and PC 2 (2-byte aligned). -/
theorem C10_pc_alignment_witness :
    (∃ r, disInstr_RISCV64_WRK false zeroBytes 0 false [] = some r) ∧
    disInstr_RISCV64_WRK false zeroBytes 2 false [] = none :=
  ⟨(C10_pc_alignment false zeroBytes false [] 0).1 (by decide),
    (C10_pc_alignment false zeroBytes false [] 2).2 (by decide)⟩

/-- C1 (code bug): decoding the valid `c.lui a0, 0x1000` word `0x6505`
(quadrant 01, bits [15:13] = 011, `rd = 10`, `nzimm = 0x1000`) succeeds and
appends the expected register write of `signExtend(0x1000, 18) = 0x1000`,
but the rule never sets `len = 2`: the outcome keeps the default
`consumedLength = 4` (the driver even asserts `len ∈ {4, 20}`), so the
appended program-counter update is `guest_IP + 4`, not `guest_IP + 2` as the
claim — and the RISC-V C extension — require for a 2-byte instruction. -/
theorem C1_compressed_length_bug :
    disInstr_RISCV64 false [] luiExampleBytes 0 0 false =
      some (dresDefaults,
        [.put (OFFB_X 10) (.const_U64 0x1000), .put OFFB_PC (.const_U64 4)], []) ∧
    dresDefaults.len = 4 :=
  ⟨by decide, rfl⟩

end RiscvToIR
